import Mathlib

/-!
Shallow embedding of the click-aggregation backend of
`react-kick-football` (`backend/main.go`): an in-memory per-country click
counter with a per-IP rate limiter, write-behind persistence to a Redis
hash, and a leaderboard derived on demand.

Modelling conventions:
* Go maps are association lists (`List (String × α)`); a Go map read of a
  missing key yields the zero value, modelled by `get0`.
* Go `int64` counters are modelled as `Int`; the 64-bit range only matters
  where the code parses or range-checks (`strconv.ParseInt(_, 10, 64)`),
  where the bound `[-2^63, 2^63)` is checked explicitly.
* `time.Time` values are abstract `Int` timestamps; each operation that
  reads the clock takes `now` as a parameter.
* The Redis backend is a value (`Redis`); whether a write reaches it is an
  explicit `writeOk` parameter, modelling backend availability.
* `float64` arithmetic for the kicks-per-second metric is modelled over
  exact rationals (`ℚ`); the guard structure is the code's.
-/

namespace ReactFootball

/-- Association-list lookup, the model of a Go map read (`m[k]`, comma-ok form). -/
def lookupE {α : Type} : List (String × α) → String → Option α
  | [], _ => none
  | (k', v) :: rest, k => if k' = k then some v else lookupE rest k

/-- Go map read with zero default (`m[k]` when `k` may be absent). -/
def get0 (m : List (String × Int)) (k : String) : Int :=
  (lookupE m k).getD 0

/-- Association-list update, the model of a Go map write (`m[k] = v`). -/
def setE {α : Type} : List (String × α) → String → α → List (String × α)
  | [], k, v => [(k, v)]
  | (k', v') :: rest, k, v =>
    if k' = k then (k, v) :: rest else (k', v') :: setE rest k v

/-- The keys of an association list. -/
def keysE {α : Type} (m : List (String × α)) : List String :=
  m.map Prod.fst

/-- `rateLimitTime = 100 * time.Millisecond`, in nanoseconds (`main.go:29`). -/
def rateLimitTime : Int := 100000000

/-- The `Storage` struct (`main.go:59-65`): country counters, per-IP
last-click times, service start time, and the dirty flag. -/
structure Storage where
  countryClicks : List (String × Int)
  lastClickIP : List (String × Int)
  startTime : Int
  dirty : Bool
deriving DecidableEq

/-- The initial storage value (`main.go:68-73`), with `startTime = now`. -/
def initialStorage (now : Int) : Storage :=
  { countryClicks := [], lastClickIP := [], startTime := now, dirty := false }

/-- `checkRateLimit` (`main.go:214-227`): reject when a last-click time
exists and `now - last < rateLimitTime`; otherwise record `now` and allow. -/
def checkRateLimit (st : Storage) (ip : String) (now : Int) : Storage × Bool :=
  match lookupE st.lastClickIP ip with
  | some lastClick =>
    if now - lastClick < rateLimitTime then (st, false)
    else ({ st with lastClickIP := setE st.lastClickIP ip now }, true)
  | none => ({ st with lastClickIP := setE st.lastClickIP ip now }, true)

/-- `incrementClicks` (`main.go:230-235`): `countryClicks[country] += clicks`
and mark dirty. -/
def incrementClicks (st : Storage) (country : String) (clicks : Int) : Storage :=
  { st with
      countryClicks :=
        setE st.countryClicks country (get0 st.countryClicks country + clicks),
      dirty := true }

/-- The JSON click payload (`main.go:40-43`). A request whose body fails to
decode is modelled as `none` at the call site. -/
structure ClickPayload where
  country : String
  clicks : Int
deriving DecidableEq

/-- Outcome of the click handler: HTTP 429, HTTP 400, or 200. -/
inductive ClickResult where
  | rateLimited
  | badRequest
  | ok
deriving DecidableEq

/-- `handleClick` (`main.go:295-327`): rate-limit gate first, then body
decoding, then validation/clamping, then the increment. -/
def handleClick (st : Storage) (clientIP : String) (now : Int)
    (body : Option ClickPayload) : Storage × ClickResult :=
  let gate := checkRateLimit st clientIP now
  if !gate.2 then (gate.1, .rateLimited)
  else
    match body with
    | none => (gate.1, .badRequest)
    | some payload =>
      let country := if payload.country = "" then "Unknown" else payload.country
      let clicks1 := if payload.clicks < 1 then 1 else payload.clicks
      let clicks2 := if clicks1 > 10 then 10 else clicks1
      (incrementClicks gate.1 country clicks2, .ok)

/-- One row of the leaderboard response (`CountryStats`, `main.go:50-54`).
`kps` is `float64` with `omitempty` in Go: per-country rows keep the zero
value and the field is omitted from their JSON. -/
structure CountryStats where
  country : String
  clicks : Int
  kps : ℚ
deriving DecidableEq

/-- Sum of all counters (the `totalClicks` accumulation loops). -/
def sumClicks (m : List (String × Int)) : Int :=
  m.foldl (fun acc p => acc + p.2) 0

/-- `getLeaderboard` (`main.go:238-273`): per-country rows sorted by clicks
descending, with a synthetic Worldwide row carrying the total and the
kicks-per-second rate prepended. `now` is in the same seconds unit as
`startTime`. -/
def getLeaderboard (st : Storage) (now : Int) : List CountryStats :=
  let rows := st.countryClicks.map (fun p => CountryStats.mk p.1 p.2 0)
  let total := sumClicks st.countryClicks
  let sorted := rows.mergeSort (fun a b => b.clicks ≤ a.clicks)
  let elapsed : Int := now - st.startTime
  let kps : ℚ := if 0 < elapsed then (total : ℚ) / (elapsed : ℚ) else 0
  CountryStats.mk "Worldwide" total kps :: sorted

/-! ### Decimal serialization

`saveToRedis` hands `int64` values to the Redis client, which serializes
them in base-10 (`strconv.AppendInt`); `loadFromRedis` parses them back
with `strconv.ParseInt(s, 10, 64)`. -/

/-- `math.MinInt64`. -/
def int64Min : Int := -9223372036854775808

/-- `math.MaxInt64`. -/
def int64Max : Int := 9223372036854775807

/-- Base-10 digits of a natural number, most significant first, with
explicit fuel so the definition reduces structurally. -/
def natDigitsAux : Nat → Nat → List Nat
  | 0, _ => []
  | fuel + 1, n => if n < 10 then [n] else natDigitsAux fuel (n / 10) ++ [n % 10]

/-- Base-10 digits of a natural number, most significant first. -/
def natDigits (n : Nat) : List Nat :=
  natDigitsAux (n + 1) n

/-- The numeric value of a big-endian digit list. -/
def digitsVal (ds : List Nat) : Nat :=
  ds.foldl (fun acc d => acc * 10 + d) 0

/-- The ASCII character for one decimal digit. -/
def digitChar (d : Nat) : Char :=
  Char.ofNat (48 + d)

/-- The decimal digit denoted by a character, if any. -/
def charDigit (c : Char) : Option Nat :=
  if 48 ≤ c.toNat ∧ c.toNat ≤ 57 then some (c.toNat - 48) else none

/-- Base-10 rendering of an `int64`, as `strconv.AppendInt` produces it. -/
def formatInt (v : Int) : String :=
  if v < 0 then String.mk ('-' :: (natDigits v.natAbs).map digitChar)
  else String.mk ((natDigits v.natAbs).map digitChar)

/-- Parse a run of decimal digit characters; fails on any non-digit. -/
def parseDigits : List Char → Option (List Nat)
  | [] => some []
  | c :: cs =>
    match charDigit c, parseDigits cs with
    | some d, some ds => some (d :: ds)
    | _, _ => none

/-- Magnitude-and-range part of `strconv.ParseInt(_, 10, 64)`: a non-empty
digit run whose signed value fits in `int64`. -/
def parseMag (neg : Bool) (cs : List Char) : Option Int :=
  if cs.isEmpty then none
  else
    match parseDigits cs with
    | none => none
    | some ds =>
      let v : Int := if neg then -(digitsVal ds : Int) else (digitsVal ds : Int)
      if int64Min ≤ v ∧ v ≤ int64Max then some v else none

/-- `strconv.ParseInt(s, 10, 64)`: optional sign, non-empty decimal digit
run, `int64` range check; `none` models a parse error. -/
def parseInt64 (s : String) : Option Int :=
  match s.toList with
  | [] => none
  | c :: cs =>
    if c = '-' then parseMag true cs
    else if c = '+' then parseMag false cs
    else parseMag false (c :: cs)

/-! ### Persistence gateway -/

/-- The durable backend state this core touches: the `football:clicks`
hash and the `football:start_time` key. -/
structure Redis where
  clicksHash : List (String × String)
  startTimeKey : Option String
deriving DecidableEq

/-- `HSET` with a field map: each provided field is written, fields not
provided are preserved. -/
def hsetAll (hash : List (String × String)) (fields : List (String × String)) :
    List (String × String) :=
  fields.foldl (fun h p => setE h p.1 p.2) hash

/-- Result of `saveToRedis`: the storage and backend afterwards, whether an
`HSET` was issued, and whether the save returned an error. -/
structure SaveResult where
  st : Storage
  redis : Redis
  wrote : Bool
  err : Bool
deriving DecidableEq

/-- `saveToRedis` (`main.go:158-189`): return immediately when not dirty
and the counter map is empty; otherwise `HSET` every counter (when the map
is non-empty), propagating a write error without clearing the dirty flag;
on success clear the dirty flag. `writeOk` models backend availability. -/
def saveToRedis (st : Storage) (r : Redis) (writeOk : Bool) : SaveResult :=
  if !st.dirty && st.countryClicks.isEmpty then
    { st := st, redis := r, wrote := false, err := false }
  else if st.countryClicks.isEmpty then
    { st := { st with dirty := false }, redis := r, wrote := false, err := false }
  else if writeOk then
    { st := { st with dirty := false },
      redis := { r with
        clicksHash :=
          hsetAll r.clicksHash
            (st.countryClicks.map (fun p => (p.1, formatInt p.2))) },
      wrote := true, err := false }
  else
    { st := st, redis := r, wrote := true, err := true }

/-- The counter-loading loop of `loadFromRedis` (`main.go:123-131`): each
hash field whose value parses as a base-10 `int64` is written into the
counter map; fields that fail to parse are skipped. -/
def loadClicks (m : List (String × Int)) (hash : List (String × String)) :
    List (String × Int) :=
  hash.foldl
    (fun acc p =>
      match parseInt64 p.2 with
      | some v => setE acc p.1 v
      | none => acc) m

/-- `loadFromRedis` (`main.go:113-155`): populate the counters from the
clicks hash, then adopt the persisted start time if it is present and
parses; if the key is absent, persist the current start time (first run). -/
def loadFromRedis (r : Redis) (st : Storage) : Storage × Redis :=
  let st1 := { st with countryClicks := loadClicks st.countryClicks r.clicksHash }
  match r.startTimeKey with
  | some s =>
    match parseInt64 s with
    | some t => ({ st1 with startTime := t }, r)
    | none => (st1, r)
  | none => (st1, { r with startTimeKey := some (formatInt st1.startTime) })

/-- A click sequence for one country: each delta applied through
`incrementClicks`, in order. -/
def applyClicks (st : Storage) (country : String) (ds : List Int) : Storage :=
  ds.foldl (fun s d => incrementClicks s country d) st

/-! ### Association-list lemmas -/

theorem lookupE_setE_self {α : Type} (m : List (String × α)) (k : String) (v : α) :
    lookupE (setE m k v) k = some v := by
  induction m with
  | nil => simp [setE, lookupE]
  | cons hd tl ih =>
    by_cases h : hd.1 = k
    · simp [setE, h, lookupE]
    · simp [setE, h, lookupE, ih]

theorem lookupE_setE_ne {α : Type} (m : List (String × α)) (k k' : String) (v : α)
    (h : k' ≠ k) : lookupE (setE m k v) k' = lookupE m k' := by
  induction m with
  | nil =>
    simp only [setE, lookupE]
    rw [if_neg (Ne.symm h)]
  | cons hd tl ih =>
    obtain ⟨a, b⟩ := hd
    by_cases hk : a = k
    · subst hk
      simp only [setE, if_pos rfl, lookupE]
      rw [if_neg (Ne.symm h), if_neg (Ne.symm h)]
    · simp only [setE, if_neg hk, lookupE]
      by_cases hk' : a = k'
      · rw [if_pos hk', if_pos hk']
      · rw [if_neg hk', if_neg hk', ih]

theorem mem_keysE_setE {α : Type} (m : List (String × α)) (k k' : String) (v : α) :
    k' ∈ keysE (setE m k v) ↔ k' = k ∨ k' ∈ keysE m := by
  induction m with
  | nil => simp [setE, keysE]
  | cons hd tl ih =>
    obtain ⟨a, b⟩ := hd
    by_cases hk : a = k
    · subst hk
      simp [setE, keysE]
    · simp only [setE, if_neg hk, keysE, List.map_cons, List.mem_cons]
      rw [keysE] at ih
      rw [ih]
      tauto

theorem nodup_keysE_setE {α : Type} (m : List (String × α)) (k : String) (v : α)
    (h : (keysE m).Nodup) : (keysE (setE m k v)).Nodup := by
  induction m with
  | nil => simp [setE, keysE]
  | cons hd tl ih =>
    obtain ⟨a, b⟩ := hd
    rw [keysE, List.map_cons, List.nodup_cons] at h
    by_cases hk : a = k
    · subst hk
      simpa [setE, keysE] using h
    · simp only [setE, if_neg hk, keysE, List.map_cons, List.nodup_cons]
      refine ⟨fun hmem => ?_, ih h.2⟩
      rcases (mem_keysE_setE tl k a v).1 hmem with h1 | h1
      · exact hk h1
      · exact h.1 h1

theorem lookupE_eq_none_iff {α : Type} (m : List (String × α)) (k : String) :
    lookupE m k = none ↔ k ∉ keysE m := by
  induction m with
  | nil => simp [lookupE, keysE]
  | cons hd tl ih =>
    obtain ⟨a, b⟩ := hd
    by_cases h : a = k
    · subst h
      simp [lookupE, keysE]
    · simp only [lookupE, if_neg h, keysE, List.map_cons, List.mem_cons]
      rw [keysE] at ih
      rw [ih]
      constructor
      · intro hn hm
        rcases hm with hm | hm
        · exact h hm.symm
        · exact hn hm
      · intro hn hm
        exact hn (Or.inr hm)

theorem lookupE_isSome_of_mem_keysE {α : Type} (m : List (String × α)) (k : String)
    (h : k ∈ keysE m) : ∃ v, lookupE m k = some v := by
  rcases heq : lookupE m k with _ | v
  · exact absurd ((lookupE_eq_none_iff m k).1 heq) (by simpa using h)
  · exact ⟨v, rfl⟩

theorem mem_of_lookupE {α : Type} (m : List (String × α)) (k : String) (v : α)
    (h : lookupE m k = some v) : (k, v) ∈ m := by
  induction m with
  | nil => simp [lookupE] at h
  | cons hd tl ih =>
    obtain ⟨a, b⟩ := hd
    by_cases hk : a = k
    · rw [lookupE, if_pos hk] at h
      injection h with hv
      subst hv
      subst hk
      exact List.mem_cons_self _ _
    · rw [lookupE, if_neg hk] at h
      exact List.mem_cons_of_mem _ (ih h)

theorem lookupE_of_mem_nodup {α : Type} (m : List (String × α)) (k : String) (v : α)
    (hnd : (keysE m).Nodup) (h : (k, v) ∈ m) : lookupE m k = some v := by
  induction m with
  | nil => simp at h
  | cons hd tl ih =>
    obtain ⟨a, b⟩ := hd
    rw [keysE, List.map_cons, List.nodup_cons] at hnd
    rcases List.mem_cons.1 h with h1 | h1
    · injection h1 with h1a h1b
      subst h1a
      subst h1b
      simp [lookupE]
    · have hk : a ≠ k := by
        intro he
        exact hnd.1 (he ▸ (List.mem_map.2 ⟨(k, v), h1, rfl⟩))
      rw [lookupE, if_neg hk]
      exact ih hnd.2 h1

theorem setE_eq_self_of_lookupE {α : Type} (m : List (String × α)) (k : String) (v : α)
    (h : lookupE m k = some v) : setE m k v = m := by
  induction m with
  | nil => simp [lookupE] at h
  | cons hd tl ih =>
    obtain ⟨a, b⟩ := hd
    by_cases hk : a = k
    · rw [lookupE, if_pos hk] at h
      injection h with hv
      subst hk
      subst hv
      simp [setE]
    · rw [lookupE, if_neg hk] at h
      simp [setE, hk, ih h]

/-! ### Decimal round-trip lemmas -/

theorem digitsVal_append (ds : List Nat) (d : Nat) :
    digitsVal (ds ++ [d]) = digitsVal ds * 10 + d := by
  simp [digitsVal, List.foldl_append]

theorem natDigitsAux_lt_ten (fuel : Nat) : ∀ n, n < fuel →
    ∀ d ∈ natDigitsAux fuel n, d < 10 := by
  induction fuel with
  | zero => omega
  | succ f ih =>
    intro n hn d hd
    rw [natDigitsAux] at hd
    by_cases h10 : n < 10
    · rw [if_pos h10] at hd
      simp only [List.mem_singleton] at hd
      omega
    · rw [if_neg h10] at hd
      have hpos : 0 < n := by omega
      have hdiv : n / 10 < n := Nat.div_lt_self hpos (by norm_num)
      rcases List.mem_append.1 hd with hm | hm
      · exact ih (n / 10) (by omega) d hm
      · simp only [List.mem_singleton] at hm
        subst hm
        exact Nat.mod_lt _ (by norm_num)

theorem digitsVal_natDigitsAux (fuel : Nat) : ∀ n, n < fuel →
    digitsVal (natDigitsAux fuel n) = n := by
  induction fuel with
  | zero => omega
  | succ f ih =>
    intro n hn
    rw [natDigitsAux]
    by_cases h10 : n < 10
    · rw [if_pos h10]
      simp [digitsVal]
    · have hpos : 0 < n := by omega
      have hdiv : n / 10 < n := Nat.div_lt_self hpos (by norm_num)
      rw [if_neg h10, digitsVal_append, ih (n / 10) (by omega)]
      omega

theorem natDigits_lt_ten (n : Nat) : ∀ d ∈ natDigits n, d < 10 :=
  natDigitsAux_lt_ten (n + 1) n (Nat.lt_succ_self n)

theorem digitsVal_natDigits (n : Nat) : digitsVal (natDigits n) = n :=
  digitsVal_natDigitsAux (n + 1) n (Nat.lt_succ_self n)

theorem natDigits_ne_nil (n : Nat) : natDigits n ≠ [] := by
  rw [natDigits, natDigitsAux]
  by_cases h10 : n < 10
  · rw [if_pos h10]
    simp
  · rw [if_neg h10]
    simp

theorem digitChar_spec (d : Nat) (h : d < 10) :
    charDigit (digitChar d) = some d ∧ digitChar d ≠ '-' ∧ digitChar d ≠ '+' := by
  interval_cases d <;> exact ⟨by decide, by decide, by decide⟩

theorem parseDigits_map (ds : List Nat) (h : ∀ d ∈ ds, d < 10) :
    parseDigits (ds.map digitChar) = some ds := by
  induction ds with
  | nil => rfl
  | cons d rest ih =>
    have hd := (digitChar_spec d (h d (List.mem_cons_self d rest))).1
    have hr := ih (fun x hx => h x (List.mem_cons_of_mem d hx))
    rw [List.map_cons, parseDigits, hd, hr]

theorem parseInt64_mk_cons (c : Char) (cs : List Char) :
    parseInt64 (String.mk (c :: cs)) =
      if c = '-' then parseMag true cs
      else if c = '+' then parseMag false cs
      else parseMag false (c :: cs) := rfl

theorem parseInt64_formatInt (v : Int) (h1 : int64Min ≤ v) (h2 : v ≤ int64Max) :
    parseInt64 (formatInt v) = some v := by
  have hlt := natDigits_lt_ten v.natAbs
  have hval := digitsVal_natDigits v.natAbs
  have hpd : parseDigits ((natDigits v.natAbs).map digitChar) = some (natDigits v.natAbs) :=
    parseDigits_map _ hlt
  rcases hds : natDigits v.natAbs with _ | ⟨d, rest⟩
  · exact absurd hds (natDigits_ne_nil v.natAbs)
  · rw [hds] at hpd hval
    have hd10 : d < 10 := by
      have := hlt d
      rw [hds] at this
      exact this (List.mem_cons_self d rest)
    obtain ⟨-, hdash, hplus⟩ := digitChar_spec d hd10
    by_cases hv : v < 0
    · rw [formatInt, if_pos hv, hds, List.map_cons, parseInt64_mk_cons, if_pos rfl]
      rw [parseMag, ← List.map_cons, hpd]
      have habs : ((digitsVal (d :: rest) : Nat) : Int) = -v := by
        rw [hval]
        omega
      simp only [List.map_cons, List.isEmpty_cons, Bool.false_eq_true, if_false,
        if_true, habs, neg_neg]
      rw [if_pos ⟨h1, h2⟩]
    · rw [formatInt, if_neg hv, hds, List.map_cons, parseInt64_mk_cons,
        if_neg hdash, if_neg hplus]
      rw [parseMag, ← List.map_cons, hpd]
      have habs : ((digitsVal (d :: rest) : Nat) : Int) = v := by
        rw [hval]
        omega
      simp only [List.map_cons, List.isEmpty_cons, Bool.false_eq_true, if_false, habs]
      rw [if_pos ⟨h1, h2⟩]

/-! ### Hash-write and load lemmas -/

theorem hsetAll_nil (h : List (String × String)) : hsetAll h [] = h := rfl

theorem hsetAll_cons (h : List (String × String)) (p : String × String)
    (rest : List (String × String)) :
    hsetAll h (p :: rest) = hsetAll (setE h p.1 p.2) rest := rfl

theorem lookupE_hsetAll_of_not_mem (fields : List (String × String)) :
    ∀ (h : List (String × String)) (k : String), k ∉ keysE fields →
      lookupE (hsetAll h fields) k = lookupE h k := by
  induction fields with
  | nil => intro h k _; rfl
  | cons p rest ih =>
    intro h k hk
    rw [keysE, List.map_cons, List.mem_cons] at hk
    push_neg at hk
    rw [hsetAll_cons, ih _ k hk.2, lookupE_setE_ne _ _ _ _ hk.1]

theorem lookupE_hsetAll_of_mem (fields : List (String × String)) :
    ∀ (h : List (String × String)) (k v : String), (keysE fields).Nodup →
      (k, v) ∈ fields → lookupE (hsetAll h fields) k = some v := by
  induction fields with
  | nil => intro h k v _ hm; simp at hm
  | cons p rest ih =>
    intro h k v hnd hm
    rw [keysE, List.map_cons, List.nodup_cons] at hnd
    rcases List.mem_cons.1 hm with h1 | h1
    · subst h1
      rw [hsetAll_cons, lookupE_hsetAll_of_not_mem rest _ k hnd.1,
        lookupE_setE_self]
    · rw [hsetAll_cons]
      exact ih _ k v hnd.2 h1

theorem hsetAll_eq_self (fields : List (String × String)) :
    ∀ (h : List (String × String)), (∀ p ∈ fields, lookupE h p.1 = some p.2) →
      hsetAll h fields = h := by
  induction fields with
  | nil => intro h _; rfl
  | cons p rest ih =>
    intro h hall
    have h1 : setE h p.1 p.2 = h :=
      setE_eq_self_of_lookupE _ _ _ (hall p (List.mem_cons_self p rest))
    rw [hsetAll_cons, h1]
    exact ih h (fun q hq => hall q (List.mem_cons_of_mem _ hq))

theorem nodup_keysE_hsetAll (fields : List (String × String)) :
    ∀ (h : List (String × String)), (keysE h).Nodup →
      (keysE (hsetAll h fields)).Nodup := by
  induction fields with
  | nil => intro h hh; exact hh
  | cons p rest ih =>
    intro h hh
    rw [hsetAll_cons]
    exact ih _ (nodup_keysE_setE _ _ _ hh)

theorem loadClicks_nil (m : List (String × Int)) : loadClicks m [] = m := rfl

theorem loadClicks_cons (m : List (String × Int)) (p : String × String)
    (hash : List (String × String)) :
    loadClicks m (p :: hash) =
      loadClicks
        (match parseInt64 p.2 with
          | some v => setE m p.1 v
          | none => m) hash := rfl

theorem lookupE_loadClicks (hash : List (String × String)) :
    ∀ (m : List (String × Int)) (k : String), (keysE hash).Nodup →
      lookupE (loadClicks m hash) k =
        ((lookupE hash k).bind parseInt64).or (lookupE m k) := by
  induction hash with
  | nil => intro m k _; rfl
  | cons p hash ih =>
    obtain ⟨a, s⟩ := p
    intro m k hnd
    rw [keysE, List.map_cons, List.nodup_cons] at hnd
    rw [loadClicks_cons]
    by_cases hk : a = k
    · subst hk
      have hnone : lookupE hash a = none := (lookupE_eq_none_iff hash a).2 hnd.1
      rcases hp : parseInt64 s with _ | v
      · simp only [hp]
        rw [ih m a hnd.2, hnone]
        simp [lookupE, hp]
      · simp only [hp]
        rw [ih (setE m a v) a hnd.2, hnone]
        simp [lookupE, hp, lookupE_setE_self]
    · rcases hp : parseInt64 s with _ | v
      · simp only [hp]
        rw [ih m k hnd.2]
        simp [lookupE, hk]
      · simp only [hp]
        rw [ih (setE m a v) k hnd.2,
          lookupE_setE_ne m a k v (fun he => hk he.symm)]
        simp [lookupE, hk]

/-! ### Counter-store lemmas -/

theorem sumClicks_eq_sum (m : List (String × Int)) :
    sumClicks m = (m.map Prod.snd).sum := by
  have haux : ∀ (l : List (String × Int)) (a : Int),
      l.foldl (fun acc p => acc + p.2) a = a + (l.map Prod.snd).sum := by
    intro l
    induction l with
    | nil => intro a; simp
    | cons p rest ih =>
      intro a
      simp only [List.foldl_cons, List.map_cons, List.sum_cons, ih]
      ring
  simpa [sumClicks] using haux m 0

theorem checkRateLimit_fields (st : Storage) (ip : String) (now : Int) :
    (checkRateLimit st ip now).1.countryClicks = st.countryClicks ∧
    (checkRateLimit st ip now).1.dirty = st.dirty ∧
    (checkRateLimit st ip now).1.startTime = st.startTime := by
  rcases hl : lookupE st.lastClickIP ip with _ | t
  · simp [checkRateLimit, hl]
  · by_cases h : now - t < rateLimitTime <;> simp [checkRateLimit, hl, h]

theorem get0_incrementClicks_self (st : Storage) (c : String) (d : Int) :
    get0 (incrementClicks st c d).countryClicks c = get0 st.countryClicks c + d := by
  simp [incrementClicks, get0, lookupE_setE_self]

theorem get0_incrementClicks_ne (st : Storage) (c c' : String) (d : Int)
    (h : c' ≠ c) :
    get0 (incrementClicks st c d).countryClicks c' = get0 st.countryClicks c' := by
  simp [incrementClicks, get0, lookupE_setE_ne _ _ _ _ h]

theorem applyClicks_nil (st : Storage) (c : String) : applyClicks st c [] = st := rfl

theorem applyClicks_cons (st : Storage) (c : String) (d : Int) (ds : List Int) :
    applyClicks st c (d :: ds) = applyClicks (incrementClicks st c d) c ds := rfl

theorem lookupE_applyClicks (ds : List Int) :
    ∀ (st : Storage) (c : String) (w : Int),
      lookupE st.countryClicks c = some w →
      lookupE (applyClicks st c ds).countryClicks c = some (w + ds.sum) := by
  induction ds with
  | nil =>
    intro st c w h
    simpa [applyClicks_nil] using h
  | cons d ds ih =>
    intro st c w h
    rw [applyClicks_cons]
    have hw : get0 st.countryClicks c = w := by simp [get0, h]
    have h2 : lookupE (incrementClicks st c d).countryClicks c = some (w + d) := by
      simp [incrementClicks, lookupE_setE_self, hw]
    rw [ih _ _ _ h2]
    congr 1
    simp only [List.sum_cons]
    ring

theorem lookupE_applyClicks_of_ne_nil (st : Storage) (c : String) (ds : List Int)
    (h : ds ≠ []) :
    lookupE (applyClicks st c ds).countryClicks c =
      some (get0 st.countryClicks c + ds.sum) := by
  rcases ds with _ | ⟨d, ds⟩
  · exact absurd rfl h
  · rw [applyClicks_cons]
    have h2 : lookupE (incrementClicks st c d).countryClicks c =
        some (get0 st.countryClicks c + d) := by
      simp [incrementClicks, lookupE_setE_self]
    rw [lookupE_applyClicks ds _ _ _ h2]
    congr 1
    simp only [List.sum_cons]
    ring

theorem nodup_keysE_applyClicks (ds : List Int) :
    ∀ (st : Storage) (c : String), (keysE st.countryClicks).Nodup →
      (keysE (applyClicks st c ds).countryClicks).Nodup := by
  induction ds with
  | nil => intro st c h; exact h
  | cons d ds ih =>
    intro st c h
    rw [applyClicks_cons]
    exact ih _ c (nodup_keysE_setE _ _ _ h)

theorem getLeaderboard_eq (st : Storage) (now : Int) :
    getLeaderboard st now =
      CountryStats.mk "Worldwide" (sumClicks st.countryClicks)
        (if 0 < now - st.startTime
          then (sumClicks st.countryClicks : ℚ) / ((now - st.startTime : Int) : ℚ)
          else 0)
      :: (st.countryClicks.map (fun p => CountryStats.mk p.1 p.2 0)).mergeSort
          (fun a b => b.clicks ≤ a.clicks) := rfl

/-! ### Operation-level helper lemmas -/

theorem checkRateLimit_spec (st : Storage) (ip : String) (now : Int) :
    ((checkRateLimit st ip now).2 = true ↔
      ∀ u, lookupE st.lastClickIP ip = some u → rateLimitTime ≤ now - u)
    ∧ ((checkRateLimit st ip now).2 = true →
        (checkRateLimit st ip now).1 =
          { st with lastClickIP := setE st.lastClickIP ip now })
    ∧ ((checkRateLimit st ip now).2 = false → (checkRateLimit st ip now).1 = st) := by
  rcases hl : lookupE st.lastClickIP ip with _ | u0
  · have hck : checkRateLimit st ip now =
        ({ st with lastClickIP := setE st.lastClickIP ip now }, true) := by
      simp [checkRateLimit, hl]
    rw [hck]
    refine ⟨?_, fun _ => rfl, ?_⟩
    · constructor
      · intro _ u hu
        exact absurd hu (by simp)
      · intro _
        rfl
    · intro hc
      exact absurd hc (by simp)
  · by_cases h : now - u0 < rateLimitTime
    · have hck : checkRateLimit st ip now = (st, false) := by
        simp [checkRateLimit, hl, h]
      rw [hck]
      refine ⟨?_, ?_, fun _ => rfl⟩
      · constructor
        · intro hc
          exact absurd hc (by simp)
        · intro hall
          have := hall u0 rfl
          omega
      · intro hc
        exact absurd hc (by simp)
    · have hck : checkRateLimit st ip now =
          ({ st with lastClickIP := setE st.lastClickIP ip now }, true) := by
        simp [checkRateLimit, hl, h]
      rw [hck]
      refine ⟨?_, fun _ => rfl, ?_⟩
      · constructor
        · intro _ u hu
          injection hu with hu
          omega
        · intro _
          rfl
      · intro hc
        exact absurd hc (by simp)

theorem handleClick_none (st : Storage) (ip : String) (now : Int) :
    handleClick st ip now none =
      ((checkRateLimit st ip now).1,
        if (checkRateLimit st ip now).2 then ClickResult.badRequest
        else ClickResult.rateLimited) := by
  rw [handleClick]
  cases hg : (checkRateLimit st ip now).2 <;> simp [hg]

theorem handleClick_allowed_some (st : Storage) (ip : String) (now : Int)
    (p : ClickPayload) (hallow : (checkRateLimit st ip now).2 = true) :
    handleClick st ip now (some p) =
      (incrementClicks (checkRateLimit st ip now).1
        (if p.country = "" then "Unknown" else p.country)
        (if p.clicks < 1 then 1 else if p.clicks > 10 then 10 else p.clicks),
       ClickResult.ok) := by
  have hdd : (if (if p.clicks < 1 then 1 else p.clicks) > 10 then (10 : Int)
        else (if p.clicks < 1 then 1 else p.clicks))
      = (if p.clicks < 1 then 1 else if p.clicks > 10 then (10 : Int) else p.clicks) := by
    by_cases h1 : p.clicks < 1
    · rw [if_pos h1, if_pos h1, if_neg (by omega)]
    · rw [if_neg h1, if_neg h1]
  rw [handleClick]
  simp only [hallow, Bool.not_true, Bool.false_eq_true, if_false, hdd]

theorem handleClick_rejected (st : Storage) (ip : String) (now : Int)
    (body : Option ClickPayload) (hrej : (checkRateLimit st ip now).2 = false) :
    handleClick st ip now body = (st, ClickResult.rateLimited) := by
  have hst := (checkRateLimit_spec st ip now).2.2 hrej
  rw [handleClick.eq_def]
  simp only [hrej, Bool.not_false, if_true, hst]

theorem keysE_map_format (m : List (String × Int)) :
    keysE (m.map (fun p => (p.1, formatInt p.2))) = keysE m := by
  simp [keysE, List.map_map, Function.comp]

theorem saveToRedis_countryClicks (st : Storage) (r : Redis) (writeOk : Bool) :
    (saveToRedis st r writeOk).st.countryClicks = st.countryClicks := by
  rw [saveToRedis]
  split
  · rfl
  · split
    · rfl
    · split
      · rfl
      · rfl

theorem saveToRedis_startTimeKey (st : Storage) (r : Redis) (writeOk : Bool) :
    (saveToRedis st r writeOk).redis.startTimeKey = r.startTimeKey := by
  rw [saveToRedis]
  split
  · rfl
  · split
    · rfl
    · split
      · rfl
      · rfl

theorem loadFromRedis_countryClicks (r : Redis) (st : Storage) :
    (loadFromRedis r st).1.countryClicks = loadClicks st.countryClicks r.clicksHash := by
  rw [loadFromRedis]
  rcases hs : r.startTimeKey with _ | s
  · rfl
  · rcases hp : parseInt64 s with _ | v <;> simp [hp]

theorem loadFromRedis_startTime_of_parse (r : Redis) (st : Storage) (s : String)
    (v : Int) (hs : r.startTimeKey = some s) (hp : parseInt64 s = some v) :
    (loadFromRedis r st).1.startTime = v := by
  rw [loadFromRedis]
  simp only [hs, hp]

theorem loadClicks_eq_self (hash : List (String × String)) :
    ∀ m, (∀ p ∈ hash, parseInt64 p.2 = none) → loadClicks m hash = m := by
  induction hash with
  | nil => intro m _; rfl
  | cons p rest ih =>
    intro m hall
    rw [loadClicks_cons]
    have hp := hall p (List.mem_cons_self p rest)
    simp only [hp]
    exact ih m (fun q hq => hall q (List.mem_cons_of_mem _ hq))

/-! ### Claim theorems -/

/-- C7: for every Counter Store state, `getLeaderboard` returns the synthetic
Worldwide row first, carrying the total count and the rate
(`total / elapsed`, and `0` whenever `elapsed ≤ 0`), followed by one row per
country, none carrying a rate, sorted by click count descending. -/
theorem leaderboard_shape (st : Storage) (now : Int) :
    ∃ rest,
      getLeaderboard st now =
        CountryStats.mk "Worldwide" (sumClicks st.countryClicks)
          (if 0 < now - st.startTime
            then (sumClicks st.countryClicks : ℚ) / ((now - st.startTime : Int) : ℚ)
            else 0) :: rest
      ∧ rest.Perm (st.countryClicks.map (fun p => CountryStats.mk p.1 p.2 0))
      ∧ rest.Pairwise (fun a b => b.clicks ≤ a.clicks)
      ∧ ∀ row ∈ rest, row.kps = 0 := by
  refine ⟨_, getLeaderboard_eq st now, List.mergeSort_perm _ _, ?_, ?_⟩
  · have hs := @List.sorted_mergeSort CountryStats
      (fun a b => decide (b.clicks ≤ a.clicks))
      (fun a b c hab hbc => by
        simp only [decide_eq_true_eq] at hab hbc ⊢
        exact le_trans hbc hab)
      (fun a b => by
        simp only [Bool.or_eq_true, decide_eq_true_eq]
        exact le_total b.clicks a.clicks)
      (st.countryClicks.map (fun p => CountryStats.mk p.1 p.2 0))
    exact hs.imp (fun h => of_decide_eq_true h)
  · intro row hmem
    have hmap : row ∈ st.countryClicks.map (fun p => CountryStats.mk p.1 p.2 0) :=
      (List.mergeSort_perm _ _).mem_iff.1 hmem
    obtain ⟨p, -, rfl⟩ := List.mem_map.1 hmap
    rfl

/-- C6: `checkRateLimit` allows exactly when no timestamp is recorded for the
client or at least `rateLimitTime` has elapsed since it, recording `now` on
acceptance and leaving state unchanged on rejection; consequently a client
whose recorded timestamp is `t` is rejected at any time before
`t + rateLimitTime` and accepted at `t + rateLimitTime`. -/
theorem rate_limiter_correct (st st₂ : Storage) (ip : String) (now t t' : Int) :
    ((checkRateLimit st ip now).2 = true ↔
      ∀ u, lookupE st.lastClickIP ip = some u → rateLimitTime ≤ now - u)
    ∧ ((checkRateLimit st ip now).2 = true →
        (checkRateLimit st ip now).1 =
          { st with lastClickIP := setE st.lastClickIP ip now })
    ∧ ((checkRateLimit st ip now).2 = false → (checkRateLimit st ip now).1 = st)
    ∧ (lookupE st₂.lastClickIP ip = some t → t' < t + rateLimitTime →
        (checkRateLimit st₂ ip t').2 = false ∧ (checkRateLimit st₂ ip t').1 = st₂)
    ∧ (lookupE st₂.lastClickIP ip = some t →
        (checkRateLimit st₂ ip (t + rateLimitTime)).2 = true) := by
  obtain ⟨hiff, htrue, hfalse⟩ := checkRateLimit_spec st ip now
  refine ⟨hiff, htrue, hfalse, ?_, ?_⟩
  · intro hl hlt
    have hspec := checkRateLimit_spec st₂ ip t'
    have hnot : ¬(checkRateLimit st₂ ip t').2 = true := by
      intro htrue2
      have := (hspec.1.1 htrue2) t hl
      omega
    have hfb : (checkRateLimit st₂ ip t').2 = false := by
      cases hcb : (checkRateLimit st₂ ip t').2
      · rfl
      · exact absurd hcb hnot
    exact ⟨hfb, hspec.2.2 hfb⟩
  · intro hl
    refine (checkRateLimit_spec st₂ ip (t + rateLimitTime)).1.2 ?_
    intro u hu
    rw [hl] at hu
    injection hu with hu
    omega

/-- C2 counterexample: a malformed request that passes the rate-limit gate is
answered with a client error, yet the rate-limiter mapping IS mutated: the
gate records the request's timestamp before body parsing fails. -/
theorem malformed_mutates_rate_limiter :
    (handleClick (initialStorage 0) "1.2.3.4" 5 none).2 = ClickResult.badRequest
    ∧ ¬ (handleClick (initialStorage 0) "1.2.3.4" 5 none).1.lastClickIP
        = (initialStorage 0).lastClickIP := by
  decide

/-- C2 amended: a malformed request is answered with a client error (or with
the rate-limit error when the gate rejects first); the country counters and
the dirty flag are never mutated; the rate-limiter mapping is unchanged when
the gate rejects, but when the gate admits the request the client's
last-accepted timestamp has already been updated to `now` when the parse
failure is detected. -/
theorem malformed_request_amended (st : Storage) (ip : String) (now : Int) :
    ((handleClick st ip now none).2 = ClickResult.rateLimited ∨
      (handleClick st ip now none).2 = ClickResult.badRequest)
    ∧ (handleClick st ip now none).1.countryClicks = st.countryClicks
    ∧ (handleClick st ip now none).1.dirty = st.dirty
    ∧ ((handleClick st ip now none).2 = ClickResult.rateLimited →
        (handleClick st ip now none).1 = st)
    ∧ ((handleClick st ip now none).2 = ClickResult.badRequest →
        (handleClick st ip now none).1.lastClickIP = setE st.lastClickIP ip now) := by
  cases hg : (checkRateLimit st ip now).2
  · have heq := handleClick_rejected st ip now none hg
    rw [heq]
    exact ⟨Or.inl rfl, rfl, rfl, fun _ => rfl, fun hc => absurd hc (by simp)⟩
  · have heq := handleClick_none st ip now
    rw [hg] at heq
    rw [heq]
    have hfields := checkRateLimit_fields st ip now
    have hupd := (checkRateLimit_spec st ip now).2.1 hg
    refine ⟨Or.inr rfl, hfields.1, hfields.2.1, fun hc => absurd hc (by simp), ?_⟩
    intro _
    rw [hupd]

/-- C9: across the service's operations (a click request, a save), no
country's count ever decreases or disappears, and non-negativity of every
count is preserved; `getLeaderboard` reads the store without mutating it. -/
theorem counters_monotone (st : Storage) (ip : String) (now : Int)
    (body : Option ClickPayload) (r : Redis) (writeOk : Bool) (c : String) :
    (get0 st.countryClicks c ≤ get0 (handleClick st ip now body).1.countryClicks c)
    ∧ (lookupE st.countryClicks c ≠ none →
        lookupE (handleClick st ip now body).1.countryClicks c ≠ none)
    ∧ (0 ≤ get0 st.countryClicks c →
        0 ≤ get0 (handleClick st ip now body).1.countryClicks c)
    ∧ (saveToRedis st r writeOk).st.countryClicks = st.countryClicks := by
  have hmain :
      (get0 st.countryClicks c ≤ get0 (handleClick st ip now body).1.countryClicks c)
      ∧ (lookupE st.countryClicks c ≠ none →
          lookupE (handleClick st ip now body).1.countryClicks c ≠ none)
      ∧ (0 ≤ get0 st.countryClicks c →
          0 ≤ get0 (handleClick st ip now body).1.countryClicks c) := by
    cases hg : (checkRateLimit st ip now).2
    · rw [handleClick_rejected st ip now body hg]
      exact ⟨le_refl _, fun h => h, fun h => h⟩
    · rcases body with _ | p
      · rw [handleClick_none st ip now, hg]
        rw [(checkRateLimit_fields st ip now).1]
        exact ⟨le_refl _, fun h => h, fun h => h⟩
      · rw [handleClick_allowed_some st ip now p hg]
        have hcc := (checkRateLimit_fields st ip now).1
        have hd1 : (1 : Int) ≤
            (if p.clicks < 1 then 1 else if p.clicks > 10 then 10 else p.clicks) := by
          by_cases h1 : p.clicks < 1
          · rw [if_pos h1]
          · rw [if_neg h1]
            by_cases h2 : p.clicks > 10
            · rw [if_pos h2]
              omega
            · rw [if_neg h2]
              omega
        by_cases hc : c = (if p.country = "" then "Unknown" else p.country)
        · subst hc
          rw [get0_incrementClicks_self]
          rw [hcc]
          refine ⟨by omega, ?_, by omega⟩
          intro _
          simp [incrementClicks, lookupE_setE_self]
        · rw [get0_incrementClicks_ne _ _ _ _ hc, hcc]
          refine ⟨le_refl _, ?_, fun h => h⟩
          intro h
          simp only [incrementClicks]
          rw [lookupE_setE_ne _ _ _ _ hc, hcc]
          exact h
  exact ⟨hmain.1, hmain.2.1, hmain.2.2, saveToRedis_countryClicks st r writeOk⟩

/-- C5: a click request that passes the rate-limit gate and parses is
recorded with its clicks value clamped to [1,10]: values above 10 are
recorded as exactly 10, values below 1 as exactly 1. -/
theorem click_clamping (st : Storage) (ip : String) (now : Int) (p : ClickPayload)
    (hallow : (checkRateLimit st ip now).2 = true) :
    (handleClick st ip now (some p)).2 = ClickResult.ok
    ∧ get0 (handleClick st ip now (some p)).1.countryClicks
        (if p.country = "" then "Unknown" else p.country)
      = get0 st.countryClicks (if p.country = "" then "Unknown" else p.country)
        + (if p.clicks < 1 then 1 else if p.clicks > 10 then 10 else p.clicks)
    ∧ (1 : Int) ≤ (if p.clicks < 1 then 1 else if p.clicks > 10 then 10 else p.clicks)
    ∧ (if p.clicks < 1 then 1 else if p.clicks > 10 then 10 else p.clicks) ≤ (10 : Int)
    ∧ (10 < p.clicks →
        (if p.clicks < 1 then 1 else if p.clicks > 10 then 10 else p.clicks) = (10 : Int))
    ∧ (p.clicks < 1 →
        (if p.clicks < 1 then 1 else if p.clicks > 10 then 10 else p.clicks) = (1 : Int)) := by
  have hb : (1 : Int) ≤ (if p.clicks < 1 then 1 else if p.clicks > 10 then 10 else p.clicks)
      ∧ (if p.clicks < 1 then 1 else if p.clicks > 10 then 10 else p.clicks) ≤ (10 : Int)
      ∧ (10 < p.clicks →
          (if p.clicks < 1 then 1 else if p.clicks > 10 then 10 else p.clicks) = (10 : Int))
      ∧ (p.clicks < 1 →
          (if p.clicks < 1 then 1 else if p.clicks > 10 then 10 else p.clicks) = (1 : Int)) := by
    by_cases h1 : p.clicks < 1
    · rw [if_pos h1]
      exact ⟨le_refl _, by omega, fun h => by omega, fun _ => rfl⟩
    · rw [if_neg h1]
      by_cases h2 : p.clicks > 10
      · rw [if_pos h2]
        exact ⟨by omega, le_refl _, fun _ => rfl, fun h => absurd h h1⟩
      · rw [if_neg h2]
        exact ⟨by omega, by omega, fun h => absurd h h2, fun h => absurd h h1⟩
  rw [handleClick_allowed_some st ip now p hallow]
  refine ⟨rfl, ?_, hb.1, hb.2.1, hb.2.2.1, hb.2.2.2⟩
  rw [get0_incrementClicks_self, (checkRateLimit_fields st ip now).1]

/-- C1: after any non-empty sequence of accepted increments with deltas `ds`
for country `C`, the leaderboard reports for `C` exactly `C`'s initial count
plus the sum of the deltas, and the Worldwide row's clicks equal the sum of
the per-country counts over the whole store. -/
theorem conservation_leaderboard (st : Storage) (C : String) (ds : List Int)
    (now : Int) (hnd : (keysE st.countryClicks).Nodup) (hds : ds ≠ []) :
    ∃ q rest,
      getLeaderboard (applyClicks st C ds) now =
        CountryStats.mk "Worldwide"
          (((applyClicks st C ds).countryClicks.map Prod.snd).sum) q :: rest
      ∧ (∃ row ∈ rest, row.country = C ∧
          row.clicks = get0 st.countryClicks C + ds.sum)
      ∧ (∀ row ∈ rest, row.country = C →
          row.clicks = get0 st.countryClicks C + ds.sum) := by
  have hlk := lookupE_applyClicks_of_ne_nil st C ds hds
  have hnd' := nodup_keysE_applyClicks ds st C hnd
  refine ⟨if 0 < now - (applyClicks st C ds).startTime
      then ((sumClicks (applyClicks st C ds).countryClicks : Int) : ℚ)
        / ((now - (applyClicks st C ds).startTime : Int) : ℚ)
      else 0,
    ((applyClicks st C ds).countryClicks.map
      (fun p => CountryStats.mk p.1 p.2 0)).mergeSort
      (fun a b => b.clicks ≤ a.clicks), ?_, ?_, ?_⟩
  · rw [getLeaderboard_eq, sumClicks_eq_sum]
  · have hm : (C, get0 st.countryClicks C + ds.sum) ∈
        (applyClicks st C ds).countryClicks := mem_of_lookupE _ _ _ hlk
    refine ⟨CountryStats.mk C (get0 st.countryClicks C + ds.sum) 0, ?_, rfl, rfl⟩
    exact (List.mergeSort_perm _ _).mem_iff.2 (List.mem_map.2 ⟨_, hm, rfl⟩)
  · intro row hmem hc
    have hmap := (List.mergeSort_perm _ _).mem_iff.1 hmem
    obtain ⟨q, hq, rfl⟩ := List.mem_map.1 hmap
    have hc' : q.1 = C := hc
    have hlq : lookupE (applyClicks st C ds).countryClicks q.1 = some q.2 :=
      lookupE_of_mem_nodup _ _ _ hnd' hq
    rw [hc'] at hlq
    rw [hlq] at hlk
    injection hlk

/-- C3 counterexample: with a non-empty counter mapping, the first
successful Save() is followed by a second Save() that ISSUES ANOTHER durable
write, because the skip guard requires the map to be empty as well as
clean. -/
theorem second_save_writes_again :
    (saveToRedis ⟨[("A", 1)], [], 0, true⟩ ⟨[], none⟩ true).err = false
    ∧ (saveToRedis
        (saveToRedis ⟨[("A", 1)], [], 0, true⟩ ⟨[], none⟩ true).st
        (saveToRedis ⟨[("A", 1)], [], 0, true⟩ ⟨[], none⟩ true).redis true).wrote
      = true := by
  decide

/-- C3 amended: a second Save() with no intervening increments changes
neither the in-memory state nor the durable contents; it issues no durable
write exactly when the counter mapping is empty, and re-issues a redundant
write of the identical mapping when it is non-empty. -/
theorem idle_save_amended (st : Storage) (r : Redis)
    (hnd : (keysE st.countryClicks).Nodup) :
    (saveToRedis st r true).err = false
    ∧ (saveToRedis (saveToRedis st r true).st (saveToRedis st r true).redis true).st
        = (saveToRedis st r true).st
    ∧ (saveToRedis (saveToRedis st r true).st (saveToRedis st r true).redis true).redis
        = (saveToRedis st r true).redis
    ∧ (saveToRedis (saveToRedis st r true).st (saveToRedis st r true).redis true).wrote
        = !st.countryClicks.isEmpty := by
  cases hie : st.countryClicks.isEmpty
  · set F := st.countryClicks.map (fun p => (p.1, formatInt p.2)) with hF
    set H := hsetAll r.clicksHash F with hH
    have h1 : saveToRedis st r true =
        ⟨{ st with dirty := false }, { r with clicksHash := H }, true, false⟩ := by
      rw [hH, hF]
      simp [saveToRedis, hie]
    have hndf : (keysE F).Nodup := by
      rw [hF, keysE_map_format]
      exact hnd
    have hself : hsetAll H F = H :=
      hsetAll_eq_self _ _
        (fun p hp => lookupE_hsetAll_of_mem F r.clicksHash p.1 p.2 hndf hp)
    have h2 : saveToRedis { st with dirty := false } { r with clicksHash := H } true
        = ⟨{ st with dirty := false }, { r with clicksHash := H }, true, false⟩ := by
      have hstep : saveToRedis { st with dirty := false } { r with clicksHash := H } true
          = ⟨{ st with dirty := false }, { r with clicksHash := hsetAll H F }, true, false⟩ := by
        rw [hF]
        simp [saveToRedis, hie]
      rw [hstep, hself]
    simp [h1, h2, hie]
  · cases hd : st.dirty
    · have h1 : saveToRedis st r true = ⟨st, r, false, false⟩ := by
        simp [saveToRedis, hd, hie]
      simp [h1, hie]
    · have h1 : saveToRedis st r true = ⟨{ st with dirty := false }, r, false, false⟩ := by
        simp [saveToRedis, hd, hie]
      have h2 : saveToRedis { st with dirty := false } r true
          = ⟨{ st with dirty := false }, r, false, false⟩ := by
        simp [saveToRedis, hie]
      simp [h1, h2, hie]

/-- C8: when Save() attempts a durable write and the write fails, it returns
the error, leaves the in-memory state (counter mapping and dirty flag) and
the durable contents untouched, so the accumulated deltas remain covered by
the next attempt. -/
theorem save_failure_preserves_state (st : Storage) (r : Redis)
    (hne : st.countryClicks ≠ []) (hd : st.dirty = true) :
    (saveToRedis st r false).wrote = true
    ∧ (saveToRedis st r false).err = true
    ∧ (saveToRedis st r false).st = st
    ∧ (saveToRedis st r false).redis = r
    ∧ (saveToRedis st r false).st.dirty = true := by
  have hie : st.countryClicks.isEmpty = false := List.isEmpty_eq_false.2 hne
  have h1 : saveToRedis st r false = ⟨st, r, true, true⟩ := by
    simp [saveToRedis, hie]
  rw [h1]
  exact ⟨rfl, rfl, rfl, rfl, hd⟩

/-- C4: a successful Save() followed by a fresh Load() into an empty store
reproduces the counter mapping and the epoch exactly, provided the counts
are `int64` values, the persisted epoch matches the in-memory one, and the
durable hash carries no parsable field for a country absent from the store
(as holds for any hash produced by this service's own load/save cycle). -/
theorem save_load_round_trip (st : Storage) (r : Redis) (t : Int)
    (hnd : (keysE st.countryClicks).Nodup)
    (hclean : (keysE r.clicksHash).Nodup)
    (hrange : ∀ p ∈ st.countryClicks, int64Min ≤ p.2 ∧ p.2 ≤ int64Max)
    (hepoch : r.startTimeKey = some (formatInt st.startTime))
    (hepochRange : int64Min ≤ st.startTime ∧ st.startTime ≤ int64Max)
    (hforeign : ∀ p ∈ r.clicksHash, p.1 ∉ keysE st.countryClicks →
        parseInt64 p.2 = none) :
    (saveToRedis st r true).err = false
    ∧ (∀ c, lookupE (loadFromRedis (saveToRedis st r true).redis
          (initialStorage t)).1.countryClicks c = lookupE st.countryClicks c)
    ∧ (loadFromRedis (saveToRedis st r true).redis (initialStorage t)).1.startTime
        = st.startTime := by
  have hparseEpoch : parseInt64 (formatInt st.startTime) = some st.startTime :=
    parseInt64_formatInt _ hepochRange.1 hepochRange.2
  have hkey : (saveToRedis st r true).redis.startTimeKey
      = some (formatInt st.startTime) := by
    rw [saveToRedis_startTimeKey]
    exact hepoch
  have hstart := loadFromRedis_startTime_of_parse
    (saveToRedis st r true).redis (initialStorage t) _ _ hkey hparseEpoch
  have hcc := loadFromRedis_countryClicks (saveToRedis st r true).redis (initialStorage t)
  cases hie : st.countryClicks.isEmpty
  · -- non-empty mapping: the save wrote every counter
    set F := st.countryClicks.map (fun p => (p.1, formatInt p.2)) with hF
    set H := hsetAll r.clicksHash F with hH
    have h1 : saveToRedis st r true =
        ⟨{ st with dirty := false }, { r with clicksHash := H }, true, false⟩ := by
      rw [hH, hF]
      simp [saveToRedis, hie]
    have hndf : (keysE F).Nodup := by
      rw [hF, keysE_map_format]
      exact hnd
    have hndH : (keysE H).Nodup := nodup_keysE_hsetAll F r.clicksHash hclean
    refine ⟨by rw [h1], ?_, hstart⟩
    intro c
    rw [hcc]
    simp only [h1, initialStorage]
    rw [lookupE_loadClicks H [] c hndH]
    by_cases hmem : c ∈ keysE st.countryClicks
    · obtain ⟨v, hv⟩ := lookupE_isSome_of_mem_keysE _ _ hmem
      have hmm : (c, v) ∈ st.countryClicks := mem_of_lookupE _ _ _ hv
      have hf : (c, formatInt v) ∈ F := by
        rw [hF]
        exact List.mem_map.2 ⟨(c, v), hmm, rfl⟩
      have hlook : lookupE H c = some (formatInt v) :=
        lookupE_hsetAll_of_mem F r.clicksHash c (formatInt v) hndf hf
      rw [hlook]
      have hr := hrange (c, v) hmm
      simp [parseInt64_formatInt v hr.1 hr.2, hv]
    · have hnf : c ∉ keysE F := by
        rw [hF, keysE_map_format]
        exact hmem
      have hlook : lookupE H c = lookupE r.clicksHash c :=
        lookupE_hsetAll_of_not_mem F r.clicksHash c hnf
      rw [hlook]
      have hnone : lookupE st.countryClicks c = none := (lookupE_eq_none_iff _ _).2 hmem
      rw [hnone]
      rcases hlr : lookupE r.clicksHash c with _ | s
      · rfl
      · have hmm : (c, s) ∈ r.clicksHash := mem_of_lookupE _ _ _ hlr
        have hpn := hforeign (c, s) hmm hmem
        simp [hpn, lookupE]
  · -- empty mapping: the save was a no-op on the backend, and nothing loads
    have hemp : st.countryClicks = [] := List.isEmpty_iff.1 hie
    have hredis : (saveToRedis st r true).redis = r := by
      cases hd : st.dirty <;> simp [saveToRedis, hd, hie]
    have herr : (saveToRedis st r true).err = false := by
      cases hd : st.dirty <;> simp [saveToRedis, hd, hie]
    refine ⟨herr, ?_, hstart⟩
    intro c
    rw [hcc, hredis]
    have hskip : loadClicks (initialStorage t).countryClicks r.clicksHash
        = (initialStorage t).countryClicks :=
      loadClicks_eq_self r.clicksHash _
        (fun p hp => hforeign p hp (by rw [hemp]; simp [keysE]))
    rw [hskip, hemp]
    rfl

/-- C10: Load() populates the store with exactly the durable-hash entries
whose value parses as a base-10 64-bit integer; an entry that fails to parse
is skipped, leaving its country absent, and the load still succeeds. -/
theorem load_parse_filter (r : Redis) (t : Int) (c : String)
    (hnd : (keysE r.clicksHash).Nodup) :
    lookupE (loadFromRedis r (initialStorage t)).1.countryClicks c
      = (lookupE r.clicksHash c).bind parseInt64 := by
  rw [loadFromRedis_countryClicks]
  show lookupE (loadClicks [] r.clicksHash) c = _
  rw [lookupE_loadClicks r.clicksHash [] c hnd]
  simp [lookupE]

/-! ### Concrete sample values for the witnesses -/

/-- A sample store: Japan has 3 clicks, no rate-limit entries, epoch 0. -/
def stW : Storage :=
  { countryClicks := [("Japan", 3)], lastClickIP := [], startTime := 0, dirty := false }

/-- A sample dirty store with one counter and one rate-limit entry. -/
def stW2 : Storage :=
  { countryClicks := [("A", 1)], lastClickIP := [("ip", 0)], startTime := 0, dirty := true }

/-- A sample empty durable backend holding the epoch "0". -/
def rW : Redis := { clicksHash := [], startTimeKey := some "0" }

/-- A sample durable backend with one parsable and one unparsable field. -/
def rW2 : Redis :=
  { clicksHash := [("Japan", "12"), ("Bad", "x")], startTimeKey := some "0" }

/-! ### Witnesses -/

/-- Witness for C1 at a concrete store and delta sequence. -/
theorem conservation_leaderboard_witness :
    ∃ q rest,
      getLeaderboard (applyClicks stW "Japan" [2, 5]) 7 =
        CountryStats.mk "Worldwide"
          (((applyClicks stW "Japan" [2, 5]).countryClicks.map Prod.snd).sum) q :: rest
      ∧ (∃ row ∈ rest, row.country = "Japan" ∧
          row.clicks = get0 stW.countryClicks "Japan" + ([2, 5] : List Int).sum)
      ∧ (∀ row ∈ rest, row.country = "Japan" →
          row.clicks = get0 stW.countryClicks "Japan" + ([2, 5] : List Int).sum) :=
  conservation_leaderboard stW "Japan" [2, 5] 7 (by decide) (by decide)

/-- Witness for C7 at a concrete store. -/
theorem leaderboard_shape_witness :
    ∃ rest,
      getLeaderboard stW 5 =
        CountryStats.mk "Worldwide" (sumClicks stW.countryClicks)
          (if 0 < (5 : Int) - stW.startTime
            then (sumClicks stW.countryClicks : ℚ) / (((5 : Int) - stW.startTime : Int) : ℚ)
            else 0) :: rest
      ∧ rest.Perm (stW.countryClicks.map (fun p => CountryStats.mk p.1 p.2 0))
      ∧ rest.Pairwise (fun a b => b.clicks ≤ a.clicks)
      ∧ ∀ row ∈ rest, row.kps = 0 :=
  leaderboard_shape stW 5

/-- Witness for C6 at a concrete rate-limiter state and times. -/
theorem rate_limiter_correct_witness :
    ((checkRateLimit stW2 "ip" 3).2 = true ↔
      ∀ u, lookupE stW2.lastClickIP "ip" = some u → rateLimitTime ≤ 3 - u)
    ∧ ((checkRateLimit stW2 "ip" 3).2 = true →
        (checkRateLimit stW2 "ip" 3).1 =
          { stW2 with lastClickIP := setE stW2.lastClickIP "ip" 3 })
    ∧ ((checkRateLimit stW2 "ip" 3).2 = false → (checkRateLimit stW2 "ip" 3).1 = stW2)
    ∧ (lookupE stW2.lastClickIP "ip" = some 0 → 50 < 0 + rateLimitTime →
        (checkRateLimit stW2 "ip" 50).2 = false ∧ (checkRateLimit stW2 "ip" 50).1 = stW2)
    ∧ (lookupE stW2.lastClickIP "ip" = some 0 →
        (checkRateLimit stW2 "ip" (0 + rateLimitTime)).2 = true) :=
  rate_limiter_correct stW2 stW2 "ip" 3 0 50

/-- Witness for the amended C2 at a concrete state. -/
theorem malformed_request_amended_witness :
    ((handleClick stW "1.2.3.4" 5 none).2 = ClickResult.rateLimited ∨
      (handleClick stW "1.2.3.4" 5 none).2 = ClickResult.badRequest)
    ∧ (handleClick stW "1.2.3.4" 5 none).1.countryClicks = stW.countryClicks
    ∧ (handleClick stW "1.2.3.4" 5 none).1.dirty = stW.dirty
    ∧ ((handleClick stW "1.2.3.4" 5 none).2 = ClickResult.rateLimited →
        (handleClick stW "1.2.3.4" 5 none).1 = stW)
    ∧ ((handleClick stW "1.2.3.4" 5 none).2 = ClickResult.badRequest →
        (handleClick stW "1.2.3.4" 5 none).1.lastClickIP
          = setE stW.lastClickIP "1.2.3.4" 5) :=
  malformed_request_amended stW "1.2.3.4" 5

/-- Witness for C9 at a concrete state, request, and save. -/
theorem counters_monotone_witness :
    (get0 stW.countryClicks "Japan"
        ≤ get0 (handleClick stW "ip" 0 (some (ClickPayload.mk "Japan" 4))).1.countryClicks "Japan")
    ∧ (lookupE stW.countryClicks "Japan" ≠ none →
        lookupE (handleClick stW "ip" 0 (some (ClickPayload.mk "Japan" 4))).1.countryClicks "Japan"
          ≠ none)
    ∧ (0 ≤ get0 stW.countryClicks "Japan" →
        0 ≤ get0 (handleClick stW "ip" 0 (some (ClickPayload.mk "Japan" 4))).1.countryClicks "Japan")
    ∧ (saveToRedis stW rW true).st.countryClicks = stW.countryClicks :=
  counters_monotone stW "ip" 0 (some (ClickPayload.mk "Japan" 4)) rW true "Japan"

/-- Witness for C5: a request with 15 clicks from a fresh client. -/
theorem click_clamping_witness :
    (handleClick stW "ip" 0 (some (ClickPayload.mk "Japan" 15))).2 = ClickResult.ok
    ∧ get0 (handleClick stW "ip" 0 (some (ClickPayload.mk "Japan" 15))).1.countryClicks
        (if (ClickPayload.mk "Japan" 15).country = "" then "Unknown"
          else (ClickPayload.mk "Japan" 15).country)
      = get0 stW.countryClicks
          (if (ClickPayload.mk "Japan" 15).country = "" then "Unknown"
            else (ClickPayload.mk "Japan" 15).country)
        + (if (ClickPayload.mk "Japan" 15).clicks < 1 then 1
            else if (ClickPayload.mk "Japan" 15).clicks > 10 then 10
            else (ClickPayload.mk "Japan" 15).clicks)
    ∧ (1 : Int) ≤ (if (ClickPayload.mk "Japan" 15).clicks < 1 then 1
        else if (ClickPayload.mk "Japan" 15).clicks > 10 then 10
        else (ClickPayload.mk "Japan" 15).clicks)
    ∧ (if (ClickPayload.mk "Japan" 15).clicks < 1 then 1
        else if (ClickPayload.mk "Japan" 15).clicks > 10 then 10
        else (ClickPayload.mk "Japan" 15).clicks) ≤ (10 : Int)
    ∧ (10 < (ClickPayload.mk "Japan" 15).clicks →
        (if (ClickPayload.mk "Japan" 15).clicks < 1 then 1
          else if (ClickPayload.mk "Japan" 15).clicks > 10 then 10
          else (ClickPayload.mk "Japan" 15).clicks) = (10 : Int))
    ∧ ((ClickPayload.mk "Japan" 15).clicks < 1 →
        (if (ClickPayload.mk "Japan" 15).clicks < 1 then 1
          else if (ClickPayload.mk "Japan" 15).clicks > 10 then 10
          else (ClickPayload.mk "Japan" 15).clicks) = (1 : Int)) :=
  click_clamping stW "ip" 0 (ClickPayload.mk "Japan" 15) (by decide)

/-- Witness for the amended C3 at a concrete dirty store. -/
theorem idle_save_amended_witness :
    (saveToRedis stW2 rW true).err = false
    ∧ (saveToRedis (saveToRedis stW2 rW true).st (saveToRedis stW2 rW true).redis true).st
        = (saveToRedis stW2 rW true).st
    ∧ (saveToRedis (saveToRedis stW2 rW true).st (saveToRedis stW2 rW true).redis true).redis
        = (saveToRedis stW2 rW true).redis
    ∧ (saveToRedis (saveToRedis stW2 rW true).st (saveToRedis stW2 rW true).redis true).wrote
        = !stW2.countryClicks.isEmpty :=
  idle_save_amended stW2 rW (by decide)

/-- Witness for C8 at a concrete dirty store with an unreachable backend. -/
theorem save_failure_preserves_state_witness :
    (saveToRedis stW2 rW false).wrote = true
    ∧ (saveToRedis stW2 rW false).err = true
    ∧ (saveToRedis stW2 rW false).st = stW2
    ∧ (saveToRedis stW2 rW false).redis = rW
    ∧ (saveToRedis stW2 rW false).st.dirty = true :=
  save_failure_preserves_state stW2 rW (by decide) (by decide)

/-- Witness for C4 at a concrete store and a fresh backend. -/
theorem save_load_round_trip_witness :
    (saveToRedis stW2 rW true).err = false
    ∧ (∀ c, lookupE (loadFromRedis (saveToRedis stW2 rW true).redis
          (initialStorage 9)).1.countryClicks c = lookupE stW2.countryClicks c)
    ∧ (loadFromRedis (saveToRedis stW2 rW true).redis (initialStorage 9)).1.startTime
        = stW2.startTime :=
  save_load_round_trip stW2 rW 9 (by decide) (by decide) (by decide) (by decide)
    (by decide) (by decide)

/-- Witness for C10 at a concrete hash with one unparsable value. -/
theorem load_parse_filter_witness :
    lookupE (loadFromRedis rW2 (initialStorage 0)).1.countryClicks "Japan"
      = (lookupE rW2.clicksHash "Japan").bind parseInt64 :=
  load_parse_filter rW2 0 "Japan" (by decide)

end ReactFootball
